import Mathlib

/-!
Verification of the query-index engine of the cloudant client package
(src/cloudant/index.py): the option translator `python_to_couch` and the
`Index` class with its three access paths (key lookup and range lookup via
`__getitem__`, lazy paged iteration via `__iter__`).

The embedding is shallow: Python values that can appear as query-option
values are modelled by `PyVal`, keyword-argument dictionaries by
association lists `PyDict`, and the fetch capability `self._ref` by a pure
function from the keyword arguments of one call to the returned page.  The
access paths are instrumented to also return the list of argument
dictionaries passed to the fetch capability, so that theorems can speak
about how many remote calls are made and with which arguments.
-/

namespace Cloudant

/-- Python values that can appear as query option values or keys in
index.py: strings (str and unicode are conflated, both are basestring),
integers, booleans, lists, tuples and None. -/
inductive PyVal : Type where
  | str : String → PyVal
  | int : Int → PyVal
  | bool : Bool → PyVal
  | list : List PyVal → PyVal
  | tuple : List PyVal → PyVal
  | none : PyVal

/-- isinstance(v, bool) -/
def isBool : PyVal → Bool
  | .bool _ => true
  | _ => false

/-- isinstance(v, basestring) -/
def isStr : PyVal → Bool
  | .str _ => true
  | _ => false

/-- isinstance(v, list) -/
def isList : PyVal → Bool
  | .list _ => true
  | _ => false

/-- isinstance(v, collections.Sequence): among the representable values the
types registered with the Sequence ABC in Python 2 are str, unicode, list
and tuple. -/
def isSeq : PyVal → Bool
  | .str _ => true
  | .list _ => true
  | .tuple _ => true
  | _ => false

/-- isinstance(v, int): in Python, bool is a subclass of int. -/
def isInt : PyVal → Bool
  | .int _ => true
  | .bool _ => true
  | _ => false

/-- v is None -/
def isNone : PyVal → Bool
  | .none => true
  | _ => false

/-- The numeric value of a Python int (bool counts as 0 or 1), if any.
Used where index.py performs integer arithmetic on a value. -/
def PyVal.asInt : PyVal → Option Int
  | .int n => Option.some n
  | .bool b => Option.some (if b then 1 else 0)
  | _ => Option.none

/-- Escaping applied by json.dumps to a list of characters.  Only the
quote and the backslash are escaped here; control-character escapes are
omitted (no claim inspects the encoded text of such characters). -/
def jsonEscapeChars : List Char → String
  | [] => ""
  | c :: cs =>
    (if c = '"' then "\\\"" else if c = '\\' then "\\\\" else String.singleton c)
      ++ jsonEscapeChars cs

/-- Escaping applied by json.dumps to the characters of a string. -/
def jsonEscape (s : String) : String :=
  jsonEscapeChars s.data

mutual

/-- json.dumps on a representable Python value (list separator ", " as in
the default json.dumps output). -/
def jsonDumps : PyVal → String
  | .str s => "\"" ++ jsonEscape s ++ "\""
  | .int n => toString n
  | .bool b => if b then "true" else "false"
  | .list xs => "[" ++ jsonDumpsList xs ++ "]"
  | .tuple xs => "[" ++ jsonDumpsList xs ++ "]"
  | .none => "null"

/-- json.dumps of the elements of a list, comma separated. -/
def jsonDumpsList : List PyVal → String
  | [] => ""
  | [x] => jsonDumps x
  | x :: y :: xs => jsonDumps x ++ ", " ++ jsonDumpsList (y :: xs)

end

/-- TYPE_CONVERTERS.get(type(v)) applied to v: the converter is selected
by the exact runtime type of the value.  Every representable value has a
converter (str/unicode and list/tuple entries of the dict collapse to the
corresponding constructors; the basestring and Sequence keys of the
Python dict are unreachable because type(v) is never an ABC), so in this
model the lookup never misses and conversion never raises. -/
def TYPE_CONVERTERS : PyVal → PyVal
  | .str s => .str (jsonDumps (.str s))
  | .int n => .int n
  | .bool b => .str (if b then "true" else "false")
  | .list xs => .str (jsonDumps (.list xs))
  | .tuple xs => .str (jsonDumps (.list xs))
  | .none => .none

/-- The ARG_TYPES catalog of index.py: option name to the isinstance
check performed on the value. -/
def ARG_TYPES : List (String × (PyVal → Bool)) :=
  [ ("descending", isBool),
    ("endkey", fun v => isStr v || isSeq v),
    ("endkey_docid", isStr),
    ("group", isBool),
    ("group_level", isStr),
    ("include_docs", isBool),
    ("inclusive_end", isBool),
    ("key", fun v => isInt v || isStr v || isSeq v),
    ("limit", fun v => isInt v || isNone v),
    ("reduce", isBool),
    ("skip", fun v => isInt v || isNone v),
    ("stale", isStr),
    ("startkey", fun v => isStr v || isSeq v),
    ("startkey_docid", isStr) ]

/-- The argument passed to Index.__getitem__: either a plain value or a
slice.  An absent slice bound is the Python object None, hence PyVal.none. -/
inductive KeyArg : Type where
  | val : PyVal → KeyArg
  | slice : PyVal → PyVal → KeyArg

/-- The errors raised by index.py.  All constructors except
pageSizeTypeError model a CloudantArgumentError carrying the message of
the corresponding raise site; the constructor data is what the message
formats in.  errorConvertingArg models the except branch around the wire
conversion; it is unreachable in this model because all conversions of
representable values are total.  pageSizeTypeError models the TypeError
Python raises in __iter__ at skip = skip + self._page_size when the page
size is not a number. -/
inductive PyErr : Type where
  | invalidArgument : String → PyErr
  | notInstanceOfExpectedType : String → PyErr
  | invalidStaleOption : PyVal → PyErr
  | errorConvertingArg : String → PyErr
  | failedToInterpret : KeyArg → PyErr
  | cannotUseSkipForIteration : PyErr
  | cannotUseLimitForIteration : PyErr
  | pageSizeTypeError : PyErr

/-- A Python dict with string keys, modelled as an association list.
Dicts built by the source have distinct keys. -/
abbrev PyDict := List (String × PyVal)

/-- k in d -/
def hasKey (k : String) (d : PyDict) : Bool :=
  (d.lookup k).isSome

/-- d[k] = v on a dict: overwrite the binding in place if the key is
present, otherwise append it. -/
def dictInsert (k : String) (v : PyVal) : PyDict → PyDict
  | [] => [(k, v)]
  | kv :: rest => if kv.1 = k then (k, v) :: rest else kv :: dictInsert k v rest

/-- d.pop(k, default) restricted to its effect on the dict: remove the
binding of k (dicts built by the source bind each key at most once). -/
def popKey (k : String) : PyDict → PyDict
  | [] => []
  | kv :: rest => if kv.1 == k then popKey k rest else kv :: popKey k rest

/-- v not in ("ok", "update_after"), negated: the value comparison of the
stale special case.  A non-string value compares unequal to both strings,
exactly as in Python. -/
def staleValueOk : PyVal → Bool
  | .str s => s == "ok" || s == "update_after"
  | _ => false

/-- The loop body of python_to_couch, with the result dict accumulated
explicitly.  Entries are processed in list order (one iteration order of
the Python dict); the first offending entry determines the error, as in
the source.  For each entry: catalog membership check, isinstance check,
the stale value check, then conversion (None is passed through; the
except branch around conversion is unreachable, see TYPE_CONVERTERS). -/
def python_to_couch_from (acc : PyDict) : PyDict → Except PyErr PyDict
  | [] => .ok acc
  | (k, v) :: rest =>
    match ARG_TYPES.lookup k with
    | Option.none => .error (.invalidArgument k)
    | Option.some check =>
      if !(check v) then .error (.notInstanceOfExpectedType k)
      else if k == "stale" && !(staleValueOk v) then .error (.invalidStaleOption v)
      else
        python_to_couch_from
          (dictInsert k (if isNone v then PyVal.none else TYPE_CONVERTERS v) acc) rest

/-- python_to_couch(options): translate python style options into couch
query options, or raise on the first invalid entry. -/
def python_to_couch (options : PyDict) : Except PyErr PyDict :=
  python_to_couch_from [] options

/-- type_or_none(typerefs, value) from the source, with the isinstance
check against typerefs passed as a predicate. -/
def type_or_none (typerefs : PyVal → Bool) (value : PyVal) : Bool :=
  typerefs value || isNone value

/-- One page returned by the fetch capability (self._ref): an object with
a rows field holding an ordered sequence of opaque row records. -/
structure Page (ρ : Type) : Type where
  rows : List ρ

/-- The state of an Index object after __init__: the stored options dict
(out of which page_size has been popped) and the popped page size
(default 100).  The fetch capability self._ref is passed separately to
the operations, so that one Index value can be exercised against any
fetch behaviour. -/
structure Index : Type where
  options : PyDict
  _page_size : PyVal

/-- Index.__init__(method_ref, **options): store the options and pop
page_size (default 100) out of them.  The pop mutates the stored dict, so
the page size never remains among the fixed options. -/
def Index.init (options : PyDict) : Index :=
  { options := popKey "page_size" options,
    _page_size := (options.lookup "page_size").getD (.int 100) }

/-- One call of the shape data = self._ref(explicit keywords, **self.options);
return data["rows"].  The keyword dict of the call is the explicit
keywords followed by the stored options; this models the Python call for
options dicts that do not rebind one of the explicit keywords (Python
raises a TypeError on a duplicate keyword argument, and the theorems that
exercise the merged keywords carry that freshness hypothesis).  The first
component of the result is the instrumentation: the list of keyword
dicts passed to the fetch capability. -/
def fetchOnce (idx : Index) (F : PyDict → Page ρ) (explicit : PyDict) :
    List PyDict × Except PyErr (List ρ) :=
  let args := explicit ++ idx.options
  ([args], .ok (F args).rows)

/-- Index.__getitem__(key), instrumented with the list of fetch calls it
makes.  A basestring or list key is passed through as key=...; a slice
whose bounds are both basestring/list/None is a startkey/endkey query
(absent bounds omitted); a slice whose bounds are both int/None is a
skip/limit query, where for two present bounds limit = stop - start;
everything else raises the failed-to-interpret CloudantArgumentError. -/
def Index.getitem (idx : Index) (F : PyDict → Page ρ) (key : KeyArg) :
    List PyDict × Except PyErr (List ρ) :=
  match key with
  | .val v =>
    if isStr v then fetchOnce idx F [("key", v)]
    else if isList v then fetchOnce idx F [("key", v)]
    else ([], .error (.failedToInterpret key))
  | .slice start stop =>
    if type_or_none (fun x => isStr x || isList x) start &&
       type_or_none (fun x => isStr x || isList x) stop then
      if !(isNone start) && !(isNone stop) then
        fetchOnce idx F [("startkey", start), ("endkey", stop)]
      else if !(isNone start) && isNone stop then
        fetchOnce idx F [("startkey", start)]
      else if isNone start && !(isNone stop) then
        fetchOnce idx F [("endkey", stop)]
      else
        fetchOnce idx F []
    else if type_or_none isInt start && type_or_none isInt stop then
      if !(isNone start) && !(isNone stop) then
        fetchOnce idx F
          [("skip", start),
           ("limit", PyVal.int ((stop.asInt.getD 0) - (start.asInt.getD 0)))]
      else if !(isNone start) && isNone stop then
        fetchOnce idx F [("skip", start)]
      else if isNone start && !(isNone stop) then
        fetchOnce idx F [("limit", stop)]
      else
        -- unreachable: a slice with both bounds None is consumed by the
        -- startkey/endkey branch above, whose type_or_none guards accept None
        ([], .error (.failedToInterpret key))
    else ([], .error (.failedToInterpret key))

/-- The keyword dict of one fetch of the iteration protocol:
self._ref(limit=self._page_size, skip=skip, **self.options). -/
def Index.iterArgs (idx : Index) (skip : Int) : PyDict :=
  ("limit", idx._page_size) :: ("skip", .int skip) :: idx.options

/-- The while-True loop of __iter__: fetch a page, advance the local skip
by the page size, yield the rows of a non-empty page and continue, stop
on an empty page.  fuel bounds the number of fetches so the function is
total; the final Bool reports whether the loop exited through its break
(an empty page) within the given fuel.  Returns the fetch calls made and
the rows yielded, in order. -/
def iterPagesLoop (F : PyDict → Page ρ) (idx : Index) (ps : Int) :
    Nat → Int → List PyDict × List ρ × Bool
  | 0, _ => ([], [], false)
  | fuel + 1, skip =>
    let args := Index.iterArgs idx skip
    let result := (F args).rows
    if 0 < result.length then
      let rest := iterPagesLoop F idx ps fuel (skip + ps)
      (args :: rest.1, result ++ rest.2.1, rest.2.2)
    else
      ([args], [], true)

/-- Index.__iter__ run as a whole (the generator consumed to exhaustion,
up to fuel fetches), instrumented with the list of fetch calls.  The
skip and limit conflict checks run before the first fetch.  When the
stored page size is not a number, Python makes one fetch and then raises
TypeError at skip = skip + self._page_size before yielding anything. -/
def Index.iterRun (idx : Index) (F : PyDict → Page ρ) (fuel : Nat) :
    List PyDict × Except PyErr (List ρ) :=
  if hasKey "skip" idx.options then ([], .error .cannotUseSkipForIteration)
  else if hasKey "limit" idx.options then ([], .error .cannotUseLimitForIteration)
  else
    match idx._page_size.asInt with
    | Option.some ps =>
      let r := iterPagesLoop F idx ps fuel 0
      (r.1, .ok r.2.1)
    | Option.none => ([Index.iterArgs idx 0], .error .pageSizeTypeError)

/-- The state of one activation of the __iter__ generator between two
next() calls: the rows of the current page not yet yielded, and the local
skip counter (already advanced past the fetched pages).  The counter is a
local variable of the generator frame, not a field of the Index. -/
structure IterState (ρ : Type) : Type where
  pending : List ρ
  skip : Int

/-- The prologue of the __iter__ generator, run before the first fetch:
the skip and limit conflict checks; on success the activation starts with
no pending rows and skip = 0. -/
def Index.iterStart (ρ : Type) (idx : Index) : Except PyErr (IterState ρ) :=
  if hasKey "skip" idx.options then .error .cannotUseSkipForIteration
  else if hasKey "limit" idx.options then .error .cannotUseLimitForIteration
  else .ok ⟨[], 0⟩

/-- One next() call on a generator activation: yield the next pending row
if the current page is not exhausted; otherwise fetch the next page with
the local skip, advance skip by the page size ps, and yield its first row
— or stop (None) if the fetched page is empty. -/
def Index.iterNext (idx : Index) (F : PyDict → Page ρ) (ps : Int) :
    IterState ρ → Option (ρ × IterState ρ)
  | ⟨r :: rest, skip⟩ => Option.some (r, ⟨rest, skip⟩)
  | ⟨[], skip⟩ =>
    match (F (Index.iterArgs idx skip)).rows with
    | [] => Option.none
    | r :: rest => Option.some (r, ⟨rest, skip + ps⟩)

/-- One scheduling step applied to an activation together with the rows
its consumer has harvested so far; a finished activation (state None)
stays finished. -/
def stepAct (idx : Index) (F : PyDict → Page ρ) (ps : Int) :
    Option (IterState ρ) × List ρ → Option (IterState ρ) × List ρ
  | (Option.none, out) => (Option.none, out)
  | (Option.some s, out) =>
    match Index.iterNext idx F ps s with
    | Option.none => (Option.none, out)
    | Option.some (r, s1) => (Option.some s1, out ++ [r])

/-- Two generator activations over the same Index driven by an arbitrary
schedule: true advances the first activation, false the second. -/
def runSched (idx : Index) (F : PyDict → Page ρ) (ps : Int) :
    List Bool → (Option (IterState ρ) × List ρ) → (Option (IterState ρ) × List ρ) →
    (Option (IterState ρ) × List ρ) × (Option (IterState ρ) × List ρ)
  | [], a, b => (a, b)
  | true :: rest, a, b => runSched idx F ps rest (stepAct idx F ps a) b
  | false :: rest, a, b => runSched idx F ps rest a (stepAct idx F ps b)

/-- Sample fetch capability used in witnesses: one page of two rows at
skip 0, empty afterwards. -/
def sampleFetch : PyDict → Page Nat := fun args =>
  match args.lookup "skip" with
  | Option.some (.int 0) => ⟨[5, 7]⟩
  | _ => ⟨[]⟩

/-- Sample fetch capability with pages of sizes 100, 100, 37, 0 at skips
0, 100, 200, 300, as in the pagination scenario of the specification. -/
def pagedFetch : PyDict → Page Nat := fun args =>
  match args.lookup "skip" with
  | Option.some (.int 0) => ⟨List.range 100⟩
  | Option.some (.int 100) => ⟨(List.range 100).map (fun i => 100 + i)⟩
  | Option.some (.int 200) => ⟨(List.range 37).map (fun i => 200 + i)⟩
  | _ => ⟨[]⟩

/-- A fetch capability that always returns one fixed row. -/
def oneRowFetch : PyDict → Page Nat := fun _ => ⟨[0]⟩

/-! Dictionary lemmas. -/

theorem lookup_popKey_self (k : String) (d : PyDict) :
    List.lookup k (popKey k d) = Option.none := by
  induction d with
  | nil => rfl
  | cons kv rest ih =>
    obtain ⟨a, v⟩ := kv
    by_cases h : a = k
    · have h1 : (a == k) = true := by simp [h]
      simpa [popKey, h1] using ih
    · have h1 : (a == k) = false := by simp [h]
      have h2 : (k == a) = false := by simp [Ne.symm h]
      simpa [popKey, h1, List.lookup, h2] using ih

theorem lookup_popKey_ne (k p : String) (h : ¬ k = p) (d : PyDict) :
    List.lookup k (popKey p d) = List.lookup k d := by
  induction d with
  | nil => rfl
  | cons kv rest ih =>
    obtain ⟨a, v⟩ := kv
    by_cases ha : a = p
    · have h1 : (a == p) = true := by simp [ha]
      have h2 : (k == a) = false := by simp [ha ▸ h]
      simpa [popKey, h1, List.lookup, h2] using ih
    · have h1 : (a == p) = false := by simp [ha]
      by_cases hk : k = a
      · simp [popKey, h1, List.lookup, hk]
      · have h2 : (k == a) = false := by simp [hk]
        simpa [popKey, h1, List.lookup, h2] using ih

theorem popKey_eq_self (k : String) (d : PyDict)
    (h : List.lookup k d = Option.none) : popKey k d = d := by
  induction d with
  | nil => rfl
  | cons kv rest ih =>
    obtain ⟨a, v⟩ := kv
    by_cases ha : k = a
    · rw [List.lookup, show (k == a) = true by simp [ha]] at h
      simp at h
    · rw [List.lookup, show (k == a) = false by simp [ha]] at h
      have h1 : (a == k) = false := by simp [Ne.symm ha]
      simp [popKey, h1, ih h]

theorem lookup_append_right (k : String) (pre d : PyDict)
    (h : ∀ kv ∈ pre, ¬ kv.1 = k) :
    List.lookup k (pre ++ d) = List.lookup k d := by
  induction pre with
  | nil => rfl
  | cons kv rest ih =>
    obtain ⟨a, v⟩ := kv
    have ha : ¬ a = k := h (a, v) (List.mem_cons_self _ _)
    simp only [List.cons_append, List.lookup]
    have : (k == a) = false := by
      simp [Ne.symm ha]
    rw [this]
    exact ih (fun kv hkv => h kv (List.mem_cons_of_mem _ hkv))

/-! Shape of the fetch calls made by the access paths. -/

/-- Every fetch call made by __getitem__ passes the stored options dict
through verbatim as the tail of the keyword dict, preceded only by the
access-specific keywords key, startkey, endkey, skip, limit. -/
theorem getitem_trace_shape {ρ : Type} (idx : Index) (F : PyDict → Page ρ)
    (key : KeyArg) :
    ∀ args ∈ (Index.getitem idx F key).1, ∃ pre, args = pre ++ idx.options ∧
      ∀ kv ∈ pre, kv.1 = "key" ∨ kv.1 = "startkey" ∨ kv.1 = "endkey" ∨
        kv.1 = "skip" ∨ kv.1 = "limit" := by
  intro args hargs
  match key with
  | .val v =>
    simp only [Index.getitem] at hargs
    split at hargs
    · simp only [fetchOnce, List.mem_singleton] at hargs
      exact ⟨_, hargs, by simp⟩
    · split at hargs
      · simp only [fetchOnce, List.mem_singleton] at hargs
        exact ⟨_, hargs, by simp⟩
      · simp at hargs
  | .slice start stop =>
    simp only [Index.getitem] at hargs
    split at hargs
    · split at hargs <;>
        [skip; split at hargs] <;>
        [skip; skip; split at hargs] <;>
        · simp only [fetchOnce, List.mem_singleton] at hargs
          exact ⟨_, hargs, by simp⟩
    · split at hargs
      · split at hargs <;>
          [skip; split at hargs] <;>
          [skip; skip; split at hargs]
        · simp only [fetchOnce, List.mem_singleton] at hargs
          exact ⟨_, hargs, by simp⟩
        · simp only [fetchOnce, List.mem_singleton] at hargs
          exact ⟨_, hargs, by simp⟩
        · simp only [fetchOnce, List.mem_singleton] at hargs
          exact ⟨_, hargs, by simp⟩
        · simp at hargs
      · simp at hargs

/-- Unfolding of one loop iteration of __iter__. -/
theorem iterPagesLoop_succ {ρ : Type} (F : PyDict → Page ρ) (idx : Index)
    (ps : Int) (fuel : Nat) (skip : Int) :
    iterPagesLoop F idx ps (fuel + 1) skip =
      (if 0 < ((F (Index.iterArgs idx skip)).rows).length then
        (Index.iterArgs idx skip :: (iterPagesLoop F idx ps fuel (skip + ps)).1,
          (F (Index.iterArgs idx skip)).rows ++
            (iterPagesLoop F idx ps fuel (skip + ps)).2.1,
          (iterPagesLoop F idx ps fuel (skip + ps)).2.2)
      else ([Index.iterArgs idx skip], [], true)) := rfl

/-- Every fetch call made by the pagination loop has the shape of
Index.iterArgs for some value of the local skip counter. -/
theorem iterPagesLoop_trace_shape {ρ : Type} (F : PyDict → Page ρ)
    (idx : Index) (ps : Int) :
    ∀ (fuel : Nat) (skip : Int) (args : PyDict),
      args ∈ (iterPagesLoop F idx ps fuel skip).1 →
      ∃ s, args = Index.iterArgs idx s := by
  intro fuel
  induction fuel with
  | zero => intro skip args h; simp [iterPagesLoop] at h
  | succ n ih =>
    intro skip args h
    rw [iterPagesLoop_succ] at h
    split at h
    · rcases List.mem_cons.mp h with h1 | h1
      · exact ⟨skip, h1⟩
      · exact ih _ _ h1
    · simp only [List.mem_singleton] at h
      exact ⟨skip, h⟩

/-! Lemmas about the option translator. -/

/-- The catalog check and isinstance check of one entry, as the
translator performs them. -/
def entryTypeOk (k : String) (v : PyVal) : Bool :=
  match ARG_TYPES.lookup k with
  | Option.some check => check v
  | Option.none => false

/-- Full validity of one entry: catalog membership, isinstance check,
and the stale value constraint. -/
def entryValid (k : String) (v : PyVal) : Bool :=
  entryTypeOk k v && (k != "stale" || staleValueOk v)

theorem dictInsert_of_notMem (k : String) (v : PyVal) (d : PyDict)
    (h : k ∉ d.map Prod.fst) : dictInsert k v d = d ++ [(k, v)] := by
  induction d with
  | nil => rfl
  | cons kv rest ih =>
    obtain ⟨a, w⟩ := kv
    simp only [List.map_cons, List.mem_cons] at h
    push_neg at h
    simp [dictInsert, Ne.symm h.1, ih h.2]

/-- If the translator accepts every entry, it returns a result dict whose
keys are the accumulator keys followed by the input keys, in order. -/
theorem python_to_couch_from_ok (opts : PyDict) : ∀ acc : PyDict,
    (opts.map Prod.fst).Nodup →
    (∀ k ∈ opts.map Prod.fst, k ∉ acc.map Prod.fst) →
    (∀ kv ∈ opts, entryValid kv.1 kv.2 = true) →
    ∃ res, python_to_couch_from acc opts = Except.ok res ∧
      res.map Prod.fst = acc.map Prod.fst ++ opts.map Prod.fst := by
  induction opts with
  | nil => intro acc _ _ _; exact ⟨acc, rfl, by simp⟩
  | cons kv rest ih =>
    intro acc hnd hdisj hval
    obtain ⟨k, v⟩ := kv
    have hv : entryValid k v = true := hval (k, v) (List.mem_cons_self _ _)
    simp only [entryValid, Bool.and_eq_true] at hv
    obtain ⟨htype, hstale⟩ := hv
    rw [entryTypeOk] at htype
    cases hl : ARG_TYPES.lookup k with
    | none => rw [hl] at htype; simp at htype
    | some check =>
      rw [hl] at htype
      simp only [] at htype
      have hc1 : (!(check v)) = false := by simp [htype]
      have hc2 : (k == "stale" && !(staleValueOk v)) = false := by
        by_cases hk : k = "stale"
        · rcases Bool.or_eq_true_iff.mp hstale with hst | hst
          · simp [hk] at hst
          · simp [hst]
        · simp [hk]
      rw [python_to_couch_from, hl]
      simp only [hc1, hc2, Bool.false_eq_true, if_false]
      have hknotacc : k ∉ acc.map Prod.fst :=
        hdisj k (by simp)
      have hinsert := dictInsert_of_notMem k
        (if isNone v then PyVal.none else TYPE_CONVERTERS v) acc hknotacc
      rw [hinsert]
      have hnd1 : (rest.map Prod.fst).Nodup := by
        simp only [List.map_cons, List.nodup_cons] at hnd
        exact hnd.2
      have hknotrest : k ∉ rest.map Prod.fst := by
        simp only [List.map_cons, List.nodup_cons] at hnd
        exact hnd.1
      have hdisj1 : ∀ k2 ∈ rest.map Prod.fst,
          k2 ∉ (acc ++ [(k, if isNone v then PyVal.none else TYPE_CONVERTERS v)]).map Prod.fst := by
        intro k2 hk2
        simp only [List.map_append, List.mem_append]
        push_neg
        constructor
        · exact hdisj k2 (by simp [hk2])
        · simp only [List.map_cons, List.map_nil, List.mem_singleton]
          intro hcontr
          exact hknotrest (hcontr ▸ hk2)
      have hval1 : ∀ kv ∈ rest, entryValid kv.1 kv.2 = true :=
        fun kv hkv => hval kv (List.mem_cons_of_mem _ hkv)
      obtain ⟨res, hres, hkeys⟩ := ih _ hnd1 hdisj1 hval1
      refine ⟨res, hres, ?_⟩
      rw [hkeys]
      simp

/-- If an invalid stale entry is anywhere in the options, the translator
raises (whichever offending entry comes first). -/
theorem python_to_couch_from_stale_err (s : String)
    (hs1 : ¬ s = "ok") (hs2 : ¬ s = "update_after") :
    ∀ (opts : PyDict) (acc : PyDict), ("stale", PyVal.str s) ∈ opts →
      ∀ res, ¬ python_to_couch_from acc opts = Except.ok res := by
  intro opts
  induction opts with
  | nil => intro acc h; simp at h
  | cons kv rest ih =>
    intro acc hmem res
    rcases List.mem_cons.mp hmem with heq | hrest
    · rw [← heq]
      have hst : staleValueOk (PyVal.str s) = false := by
        simp [staleValueOk, hs1, hs2]
      rw [python_to_couch_from,
        show ARG_TYPES.lookup "stale" = Option.some isStr from rfl]
      simp [isStr, hst]
    · obtain ⟨k, v⟩ := kv
      rw [python_to_couch_from]
      cases hl : ARG_TYPES.lookup k with
      | none => simp
      | some check =>
        cases hc : (!(check v)) with
        | true => simp [hc]
        | false =>
          cases hstale : (k == "stale" && !(staleValueOk v)) with
          | true => simp [hc, hstale]
          | false =>
            simp only [hc, hstale, Bool.false_eq_true, if_false]
            exact ih _ hrest res

/-! The claims. -/

/-- C7: translation of an option mapping containing stale succeeds when
its value is exactly "ok" or "update_after"; for every other string value
it fails with the invalid-stale-value error (the InvalidOptionValue of
the specification), even though the value passes the basestring type
check; and an invalid stale entry anywhere in an option mapping makes
translation fail. -/
theorem claim_C7 :
    (∀ s : String, ¬ s = "ok" → ¬ s = "update_after" →
       python_to_couch [("stale", PyVal.str s)] =
         Except.error (PyErr.invalidStaleOption (PyVal.str s)))
    ∧ python_to_couch [("stale", PyVal.str "ok")] =
        Except.ok [("stale", PyVal.str "\"ok\"")]
    ∧ python_to_couch [("stale", PyVal.str "update_after")] =
        Except.ok [("stale", PyVal.str "\"update_after\"")]
    ∧ (∀ (opts : PyDict) (s : String), ("stale", PyVal.str s) ∈ opts →
         ¬ s = "ok" → ¬ s = "update_after" →
         ∀ res, ¬ python_to_couch opts = Except.ok res) := by
  refine ⟨?_, rfl, rfl, ?_⟩
  · intro s hs1 hs2
    have hst : staleValueOk (PyVal.str s) = false := by
      simp [staleValueOk, hs1, hs2]
    rw [python_to_couch, python_to_couch_from,
      show ARG_TYPES.lookup "stale" = Option.some isStr from rfl]
    simp [isStr, hst]
  · intro opts s hmem hs1 hs2 res
    exact python_to_couch_from_stale_err s hs1 hs2 opts [] hmem res

/-- C7 witness: stale = "nope" is rejected with the invalid-stale-value
error. -/
theorem claim_C7_witness :
    python_to_couch [("stale", PyVal.str "nope")] =
      Except.error (PyErr.invalidStaleOption (PyVal.str "nope")) :=
  claim_C7.1 "nope" (by decide) (by decide)

/-- C8 counterexample: stale = "nope" has a catalog name and a
type-correct (basestring) value, yet translation fails, refuting the
claim that catalog names with type-correct values always translate. -/
theorem claim_C8_counterexample :
    entryTypeOk "stale" (PyVal.str "nope") = true ∧
    python_to_couch [("stale", PyVal.str "nope")] =
      Except.error (PyErr.invalidStaleOption (PyVal.str "nope")) :=
  ⟨rfl, rfl⟩

/-- C8 (amended): for every option mapping (with distinct names, as in a
Python dict) in which every name is in the catalog, every value satisfies
the declared type constraint, and a stale entry also satisfies the stale
value constraint, translation succeeds and the output has exactly one
wire entry per input entry, with the same key sequence. -/
theorem claim_C8_amended (opts : PyDict)
    (hnd : (opts.map Prod.fst).Nodup)
    (hval : ∀ kv ∈ opts, entryValid kv.1 kv.2 = true) :
    ∃ res, python_to_couch opts = Except.ok res ∧
      res.map Prod.fst = opts.map Prod.fst := by
  obtain ⟨res, hres, hkeys⟩ :=
    python_to_couch_from_ok opts [] hnd (by simp) hval
  exact ⟨res, hres, by simpa using hkeys⟩

/-- C8 witness: a four-entry mapping with one option of each value kind
translates to a four-entry wire mapping with the same keys. -/
theorem claim_C8_witness :
    ∃ res,
      python_to_couch
        [("descending", PyVal.bool true), ("stale", PyVal.str "ok"),
         ("key", PyVal.str "a"), ("limit", PyVal.none)] = Except.ok res ∧
      res.map Prod.fst = ["descending", "stale", "key", "limit"] := by
  have h := claim_C8_amended
    [("descending", PyVal.bool true), ("stale", PyVal.str "ok"),
     ("key", PyVal.str "a"), ("limit", PyVal.none)]
    (by simp) (by decide)
  simpa using h

/-- C2 counterexample: a scalar integer key — accepted by the catalog
entry for the key option — is rejected by key lookup with the
failed-to-interpret CloudantArgumentError, and the fetch capability is
never invoked, refuting the claim that every catalog-accepted scalar key
is looked up without error. -/
theorem claim_C2_counterexample :
    Index.getitem (Index.init []) oneRowFetch (KeyArg.val (PyVal.int 5)) =
      ([], Except.error (PyErr.failedToInterpret (KeyArg.val (PyVal.int 5)))) :=
  rfl

/-- C2 (amended): key lookup with a basestring or list key invokes the
fetch capability exactly once, with the key merged into the fixed
options, and returns the rows of the resulting page verbatim; but a
scalar integer key or a tuple key is rejected with the
failed-to-interpret CloudantArgumentError before any fetch.  The
freshness hypothesis on the option names reflects that Python raises a
TypeError on a duplicate keyword argument. -/
theorem claim_C2_amended (ρ : Type) (idx : Index) (F : PyDict → Page ρ)
    (hkey : List.lookup "key" idx.options = Option.none) :
    (∀ s : String,
        Index.getitem idx F (KeyArg.val (PyVal.str s)) =
          ([("key", PyVal.str s) :: idx.options],
            Except.ok (F (("key", PyVal.str s) :: idx.options)).rows))
    ∧ (∀ xs : List PyVal,
        Index.getitem idx F (KeyArg.val (PyVal.list xs)) =
          ([("key", PyVal.list xs) :: idx.options],
            Except.ok (F (("key", PyVal.list xs) :: idx.options)).rows))
    ∧ (∀ n : Int,
        Index.getitem idx F (KeyArg.val (PyVal.int n)) =
          ([], Except.error (PyErr.failedToInterpret (KeyArg.val (PyVal.int n)))))
    ∧ (∀ xs : List PyVal,
        Index.getitem idx F (KeyArg.val (PyVal.tuple xs)) =
          ([], Except.error (PyErr.failedToInterpret (KeyArg.val (PyVal.tuple xs))))) := by
  refine ⟨?_, ?_, ?_, ?_⟩ <;> intro x <;>
    simp [Index.getitem, fetchOnce, isStr, isList]

/-- C2 witness: a string key on an Index with one fixed option. -/
theorem claim_C2_witness :
    Index.getitem (Index.init [("descending", PyVal.bool true)]) oneRowFetch
        (KeyArg.val (PyVal.str "snipe")) =
      ([[("key", PyVal.str "snipe"), ("descending", PyVal.bool true)]],
        Except.ok [0]) := by
  have h := (claim_C2_amended Nat (Index.init [("descending", PyVal.bool true)])
    oneRowFetch rfl).1 "snipe"
  simpa using h

/-- C5: a range lookup with only an integer stop bound issues exactly one
fetch whose keywords bind limit to stop and do not bind skip at all; a
range lookup with both integer bounds issues exactly one fetch with skip
= start and limit = stop - start, the difference being passed through
uninterpreted even when negative.  The freshness hypotheses on the fixed
options reflect that Python raises a TypeError on a duplicate keyword
argument. -/
theorem claim_C5 (ρ : Type) (idx : Index) (F : PyDict → Page ρ)
    (hskip : List.lookup "skip" idx.options = Option.none)
    (hlimit : List.lookup "limit" idx.options = Option.none) :
    (∀ stop : Int,
        Index.getitem idx F (KeyArg.slice PyVal.none (PyVal.int stop)) =
          ([("limit", PyVal.int stop) :: idx.options],
            Except.ok (F (("limit", PyVal.int stop) :: idx.options)).rows)
        ∧ List.lookup "limit" (("limit", PyVal.int stop) :: idx.options) =
            Option.some (PyVal.int stop)
        ∧ List.lookup "skip" (("limit", PyVal.int stop) :: idx.options) =
            Option.none)
    ∧ (∀ start stop : Int,
        Index.getitem idx F (KeyArg.slice (PyVal.int start) (PyVal.int stop)) =
          ([("skip", PyVal.int start) :: ("limit", PyVal.int (stop - start)) ::
              idx.options],
            Except.ok (F (("skip", PyVal.int start) ::
              ("limit", PyVal.int (stop - start)) :: idx.options)).rows)
        ∧ List.lookup "skip" (("skip", PyVal.int start) ::
            ("limit", PyVal.int (stop - start)) :: idx.options) =
              Option.some (PyVal.int start)
        ∧ List.lookup "limit" (("skip", PyVal.int start) ::
            ("limit", PyVal.int (stop - start)) :: idx.options) =
              Option.some (PyVal.int (stop - start))) := by
  constructor
  · intro stop
    refine ⟨?_, ?_, ?_⟩
    · simp [Index.getitem, fetchOnce, type_or_none, isStr, isList, isInt, isNone]
    · simp [List.lookup]
    · simp [List.lookup, hskip]
  · intro start stop
    refine ⟨?_, ?_, ?_⟩
    · simp [Index.getitem, fetchOnce, type_or_none, isStr, isList, isInt, isNone,
        PyVal.asInt]
    · simp [List.lookup]
    · simp [List.lookup, hlimit]

/-- C5 witness: get_range(None, 200) fetches once with limit = 200 and no
skip; get_range(100, 200) fetches once with skip = 100 and limit = 100;
get_range(300, 200) passes the negative difference through. -/
theorem claim_C5_witness :
    (Index.getitem (Index.init []) oneRowFetch
        (KeyArg.slice PyVal.none (PyVal.int 200)) =
      ([[("limit", PyVal.int 200)]], Except.ok [0])
      ∧ List.lookup "skip" [("limit", PyVal.int 200)] = Option.none)
    ∧ Index.getitem (Index.init []) oneRowFetch
        (KeyArg.slice (PyVal.int 100) (PyVal.int 200)) =
      ([[("skip", PyVal.int 100), ("limit", PyVal.int 100)]], Except.ok [0])
    ∧ Index.getitem (Index.init []) oneRowFetch
        (KeyArg.slice (PyVal.int 300) (PyVal.int 200)) =
      ([[("skip", PyVal.int 300), ("limit", PyVal.int (-100))]], Except.ok [0]) := by
  have h := claim_C5 Nat (Index.init []) oneRowFetch rfl rfl
  refine ⟨⟨?_, ?_⟩, ?_, ?_⟩
  · simpa using (h.1 200).1
  · simpa using (h.1 200).2.2
  · simpa using (h.2 100 200).1
  · simpa using (h.2 300 200).1

/-- C6: a range lookup whose bounds fit neither the key-range
classification (both basestring/list/None) nor the positional
classification (both int/None) fails with the failed-to-interpret
CloudantArgumentError (the UnsupportedRangeError of the specification),
which names the offending argument, and the fetch capability is never
invoked. -/
theorem claim_C6 (ρ : Type) (idx : Index) (F : PyDict → Page ρ)
    (start stop : PyVal)
    (hkr : (type_or_none (fun x => isStr x || isList x) start &&
            type_or_none (fun x => isStr x || isList x) stop) = false)
    (hint : (type_or_none isInt start && type_or_none isInt stop) = false) :
    Index.getitem idx F (KeyArg.slice start stop) =
      ([], Except.error (PyErr.failedToInterpret (KeyArg.slice start stop))) := by
  simp [Index.getitem, hkr, hint]

/-- C6 witness: get_range("2013", 200), with mixed bound kinds, fails
without a fetch. -/
theorem claim_C6_witness :
    Index.getitem (Index.init []) oneRowFetch
        (KeyArg.slice (PyVal.str "2013") (PyVal.int 200)) =
      ([], Except.error
        (PyErr.failedToInterpret (KeyArg.slice (PyVal.str "2013") (PyVal.int 200)))) :=
  claim_C6 Nat (Index.init []) oneRowFetch (PyVal.str "2013") (PyVal.int 200)
    rfl rfl

/-- C1 counterexample: an Index whose fixed options fail validation (the
name is not in the catalog, so python_to_couch rejects them) still makes
a fetch call on key lookup, and the call carries the raw, untranslated
option value.  This refutes the claim that every access path validates
and translates the fixed options via the Option Translator before the
fetch capability is invoked: no translation happens in index.py at all
(the translator is invoked inside the fetch collaborator instead). -/
theorem claim_C1_counterexample :
    Index.getitem (Index.init [("bogus", PyVal.int 1)]) oneRowFetch
        (KeyArg.val (PyVal.str "k")) =
      ([[("key", PyVal.str "k"), ("bogus", PyVal.int 1)]], Except.ok [0])
    ∧ python_to_couch ((Index.init [("bogus", PyVal.int 1)]).options) =
        Except.error (PyErr.invalidArgument "bogus")
    ∧ python_to_couch [("descending", PyVal.bool true)] =
        Except.ok [("descending", PyVal.str "true")]
    ∧ Index.getitem (Index.init [("descending", PyVal.bool true)]) oneRowFetch
        (KeyArg.val (PyVal.str "k")) =
      ([[("key", PyVal.str "k"), ("descending", PyVal.bool true)]], Except.ok [0]) :=
  ⟨rfl, rfl, rfl, rfl⟩

/-- C1 (amended): the access paths of the Index pass the fixed option
mapping to the fetch capability verbatim and untranslated — every fetch
call keyword dict ends with the stored options unchanged, preceded only
by the access-specific keywords; the Option Translator is not invoked by
the Index, validation and translation being left to the fetch
collaborator. -/
theorem claim_C1_amended (ρ : Type) (idx : Index) (F : PyDict → Page ρ) :
    (∀ (key : KeyArg) (args : PyDict), args ∈ (Index.getitem idx F key).1 →
       ∃ pre, args = pre ++ idx.options)
    ∧ (∀ (fuel : Nat) (args : PyDict), args ∈ (Index.iterRun idx F fuel).1 →
       ∃ pre, args = pre ++ idx.options) := by
  constructor
  · intro key args hargs
    obtain ⟨pre, heq, -⟩ := getitem_trace_shape idx F key args hargs
    exact ⟨pre, heq⟩
  · intro fuel args hargs
    rw [Index.iterRun] at hargs
    split at hargs
    · simp at hargs
    · split at hargs
      · simp at hargs
      · split at hargs
        · simp only at hargs
          obtain ⟨s, hs⟩ := iterPagesLoop_trace_shape F idx _ fuel 0 args hargs
          exact ⟨[("limit", idx._page_size), ("skip", PyVal.int s)], hs⟩
        · simp only [List.mem_singleton] at hargs
          exact ⟨[("limit", idx._page_size), ("skip", PyVal.int 0)], hargs⟩

/-- C1 witness: on a key lookup over an Index with one fixed option, the
single fetch call keyword dict ends with the stored options verbatim. -/
theorem claim_C1_witness :
    ∃ pre, [("key", PyVal.str "k"), ("descending", PyVal.bool true)] =
      pre ++ (Index.init [("descending", PyVal.bool true)]).options :=
  (claim_C1_amended Nat (Index.init [("descending", PyVal.bool true)])
      oneRowFetch).1
    (KeyArg.val (PyVal.str "k"))
    [("key", PyVal.str "k"), ("descending", PyVal.bool true)]
    (List.mem_singleton.mpr rfl)

/-- C4: when the fixed options of an Index bind skip or limit, lazy
iteration fails with the cannot-use-skip/limit CloudantArgumentError (the
ConflictingOptionError of the specification) and the fetch capability is
never called: the whole-run trace is empty, and the generator prologue
raises before the first fetch. -/
theorem claim_C4 (ρ : Type) (idx : Index) (F : PyDict → Page ρ) (fuel : Nat)
    (h : hasKey "skip" idx.options = true ∨ hasKey "limit" idx.options = true) :
    (Index.iterRun idx F fuel).1 = []
    ∧ ((Index.iterRun idx F fuel).2 =
         Except.error PyErr.cannotUseSkipForIteration
       ∨ (Index.iterRun idx F fuel).2 =
         Except.error PyErr.cannotUseLimitForIteration)
    ∧ (Index.iterStart ρ idx = Except.error PyErr.cannotUseSkipForIteration
       ∨ Index.iterStart ρ idx = Except.error PyErr.cannotUseLimitForIteration) := by
  by_cases hs : hasKey "skip" idx.options = true
  · refine ⟨?_, Or.inl ?_, Or.inl ?_⟩ <;> simp [Index.iterRun, Index.iterStart, hs]
  · have hl : hasKey "limit" idx.options = true := h.resolve_left hs
    refine ⟨?_, Or.inr ?_, Or.inr ?_⟩ <;>
      simp [Index.iterRun, Index.iterStart, hs, hl]

/-- C4 witness: an Index constructed with fixed option skip = 5. -/
theorem claim_C4_witness :
    (Index.iterRun (Index.init [("skip", PyVal.int 5)]) oneRowFetch 7).1 = []
    ∧ ((Index.iterRun (Index.init [("skip", PyVal.int 5)]) oneRowFetch 7).2 =
         Except.error PyErr.cannotUseSkipForIteration
       ∨ (Index.iterRun (Index.init [("skip", PyVal.int 5)]) oneRowFetch 7).2 =
         Except.error PyErr.cannotUseLimitForIteration)
    ∧ (Index.iterStart Nat (Index.init [("skip", PyVal.int 5)]) =
         Except.error PyErr.cannotUseSkipForIteration
       ∨ Index.iterStart Nat (Index.init [("skip", PyVal.int 5)]) =
         Except.error PyErr.cannotUseLimitForIteration) :=
  claim_C4 Nat (Index.init [("skip", PyVal.int 5)]) oneRowFetch 7 (Or.inl rfl)

/-- C3: over a fetch capability that returns pages of sizes 100, 100, 37
and 0 at skips 0, 100, 200 and 300 (page size 100, the default), lazy
iteration consumed to exhaustion makes exactly those 4 fetch calls — the
skip of the n-th call being (n-1) * 100 — and yields exactly the 237
rows of the three non-empty pages in per-page order; the non-empty short
page of 37 rows does not terminate the iteration, only the empty page
does, and giving the loop any more fuel changes nothing. -/
theorem claim_C3 (ρ : Type) (opts : PyDict) (F : PyDict → Page ρ)
    (r1 r2 r3 : List ρ)
    (hs : List.lookup "skip" opts = Option.none)
    (hl : List.lookup "limit" opts = Option.none)
    (hp : List.lookup "page_size" opts = Option.none)
    (h1 : F (Index.iterArgs (Index.init opts) 0) = Page.mk r1)
    (h1len : r1.length = 100)
    (h2 : F (Index.iterArgs (Index.init opts) 100) = Page.mk r2)
    (h2len : r2.length = 100)
    (h3 : F (Index.iterArgs (Index.init opts) 200) = Page.mk r3)
    (h3len : r3.length = 37)
    (h4 : F (Index.iterArgs (Index.init opts) 300) = Page.mk []) :
    ∀ fuel : Nat, 4 ≤ fuel →
      Index.iterRun (Index.init opts) F fuel =
        ([Index.iterArgs (Index.init opts) 0,
          Index.iterArgs (Index.init opts) 100,
          Index.iterArgs (Index.init opts) 200,
          Index.iterArgs (Index.init opts) 300],
          Except.ok (r1 ++ r2 ++ r3))
      ∧ (r1 ++ r2 ++ r3).length = 237 := by
  intro fuel hfuel
  obtain ⟨k, rfl⟩ : ∃ k, fuel = k + 4 := ⟨fuel - 4, by omega⟩
  have hopts : (Index.init opts).options = opts := by
    simp only [Index.init]
    exact popKey_eq_self _ _ hp
  have hps : (Index.init opts)._page_size = PyVal.int 100 := by
    simp [Index.init, hp]
  have hskip : hasKey "skip" (Index.init opts).options = false := by
    rw [hopts]; simp [hasKey, hs]
  have hlimit : hasKey "limit" (Index.init opts).options = false := by
    rw [hopts]; simp [hasKey, hl]
  refine ⟨?_, by simp [h1len, h2len, h3len]⟩
  rw [Index.iterRun, hskip, hlimit, hps]
  simp only [Bool.false_eq_true, if_false, PyVal.asInt]
  have L4 : iterPagesLoop F (Index.init opts) 100 (k + 1) 300 =
      ([Index.iterArgs (Index.init opts) 300], [], true) := by
    rw [iterPagesLoop_succ]
    simp [h4]
  have L3 : iterPagesLoop F (Index.init opts) 100 (k + 1 + 1) 200 =
      (Index.iterArgs (Index.init opts) 200 ::
          [Index.iterArgs (Index.init opts) 300], r3, true) := by
    rw [iterPagesLoop_succ]
    simp [h3, h3len, L4]
  have L2 : iterPagesLoop F (Index.init opts) 100 (k + 1 + 1 + 1) 100 =
      (Index.iterArgs (Index.init opts) 100 ::
          Index.iterArgs (Index.init opts) 200 ::
          [Index.iterArgs (Index.init opts) 300], r2 ++ r3, true) := by
    rw [iterPagesLoop_succ]
    simp [h2, h2len, L3]
  have L1 : iterPagesLoop F (Index.init opts) 100 (k + 1 + 1 + 1 + 1) 0 =
      (Index.iterArgs (Index.init opts) 0 ::
          Index.iterArgs (Index.init opts) 100 ::
          Index.iterArgs (Index.init opts) 200 ::
          [Index.iterArgs (Index.init opts) 300], r1 ++ (r2 ++ r3), true) := by
    rw [iterPagesLoop_succ]
    simp [h1, h1len, L2]
  rw [show k + 4 = k + 1 + 1 + 1 + 1 from rfl]
  simp [L1, List.append_assoc]

/-- C3 witness: the paged fetch capability with pages of sizes 100, 100,
37, 0 over an Index with no fixed options, at fuel 4. -/
theorem claim_C3_witness :
    Index.iterRun (Index.init []) pagedFetch 4 =
      ([Index.iterArgs (Index.init []) 0,
        Index.iterArgs (Index.init []) 100,
        Index.iterArgs (Index.init []) 200,
        Index.iterArgs (Index.init []) 300],
        Except.ok (List.range 100 ++ (List.range 100).map (fun i => 100 + i) ++
          (List.range 37).map (fun i => 200 + i)))
    ∧ (List.range 100 ++ (List.range 100).map (fun i => 100 + i) ++
        (List.range 37).map (fun i => 200 + i)).length = 237 :=
  claim_C3 Nat [] pagedFetch (List.range 100)
    ((List.range 100).map (fun i => 100 + i))
    ((List.range 37).map (fun i => 200 + i))
    rfl rfl rfl rfl (by simp) rfl (by simp) rfl (by simp) rfl 4 (by omega)

/-- C10: page_size supplied at construction is popped out of the fixed
option mapping, so no fetch call of any access path ever carries a
page_size keyword; the popped value is the iteration page size, passed
as the limit keyword of every pagination fetch, and it defaults to 100
when absent. -/
theorem claim_C10 (opts : PyDict) :
    List.lookup "page_size" (Index.init opts).options = Option.none
    ∧ (∀ (ρ : Type) (F : PyDict → Page ρ) (key : KeyArg) (args : PyDict),
         args ∈ (Index.getitem (Index.init opts) F key).1 →
         List.lookup "page_size" args = Option.none)
    ∧ (∀ (ρ : Type) (F : PyDict → Page ρ) (fuel : Nat) (args : PyDict),
         args ∈ (Index.iterRun (Index.init opts) F fuel).1 →
         List.lookup "page_size" args = Option.none)
    ∧ (List.lookup "page_size" opts = Option.none →
         (Index.init opts)._page_size = PyVal.int 100
         ∧ ∀ s : Int, List.lookup "limit" (Index.iterArgs (Index.init opts) s) =
             Option.some (PyVal.int 100))
    ∧ (∀ v, List.lookup "page_size" opts = Option.some v →
         (Index.init opts)._page_size = v
         ∧ ∀ s : Int, List.lookup "limit" (Index.iterArgs (Index.init opts) s) =
             Option.some v) := by
  have hnone : List.lookup "page_size" (Index.init opts).options = Option.none := by
    simp only [Index.init]
    exact lookup_popKey_self _ _
  have hiterArgs : ∀ s : Int,
      List.lookup "page_size" (Index.iterArgs (Index.init opts) s) =
        Option.none := by
    intro s
    rw [Index.iterArgs,
      show (("limit", (Index.init opts)._page_size) ::
          ("skip", PyVal.int s) :: (Index.init opts).options) =
        [("limit", (Index.init opts)._page_size), ("skip", PyVal.int s)] ++
          (Index.init opts).options from rfl,
      lookup_append_right _ _ _ (by simp), hnone]
  refine ⟨hnone, ?_, ?_, ?_, ?_⟩
  · intro ρ F key args hargs
    obtain ⟨pre, rfl, hkv⟩ :=
      getitem_trace_shape (Index.init opts) F key args hargs
    rw [lookup_append_right _ _ _ ?_, hnone]
    intro kv hkvmem
    rcases hkv kv hkvmem with h | h | h | h | h <;> simp [h]
  · intro ρ F fuel args hargs
    rw [Index.iterRun] at hargs
    split at hargs
    · simp at hargs
    · split at hargs
      · simp at hargs
      · split at hargs
        · obtain ⟨s, rfl⟩ :=
            iterPagesLoop_trace_shape F (Index.init opts) _ fuel 0 args hargs
          exact hiterArgs s
        · simp only [List.mem_singleton] at hargs
          rw [hargs]
          exact hiterArgs 0
  · intro hp
    have hps : (Index.init opts)._page_size = PyVal.int 100 := by
      simp [Index.init, hp]
    exact ⟨hps, fun s => by rw [Index.iterArgs, hps]; simp [List.lookup]⟩
  · intro v hv
    have hps : (Index.init opts)._page_size = v := by
      simp [Index.init, hv]
    exact ⟨hps, fun s => by rw [Index.iterArgs, hps]; simp [List.lookup]⟩

/-- C10 witness: an Index constructed with page_size = 10 stores 10 as
the page size, passes it as the limit of a pagination fetch, and keeps
page_size out of the stored options. -/
theorem claim_C10_witness :
    (Index.init [("page_size", PyVal.int 10)])._page_size = PyVal.int 10
    ∧ List.lookup "limit"
        (Index.iterArgs (Index.init [("page_size", PyVal.int 10)]) 0) =
      Option.some (PyVal.int 10)
    ∧ List.lookup "page_size"
        (Index.init [("page_size", PyVal.int 10)]).options = Option.none := by
  have h := claim_C10 [("page_size", PyVal.int 10)]
  exact ⟨(h.2.2.2.2 _ rfl).1, (h.2.2.2.2 _ rfl).2 0, h.1⟩

/-! Lemmas about interleaved generator activations. -/

theorem stepAct_of_finished {ρ : Type} (idx : Index) (F : PyDict → Page ρ)
    (ps : Int) (a : Option (IterState ρ) × List ρ) (h : a.1 = Option.none) :
    stepAct idx F ps a = a := by
  obtain ⟨s, out⟩ := a
  cases s with
  | none => rfl
  | some s1 => simp at h

theorem iterate_stepAct_of_finished {ρ : Type} (idx : Index)
    (F : PyDict → Page ρ) (ps : Int) (a : Option (IterState ρ) × List ρ)
    (h : a.1 = Option.none) :
    ∀ d : Nat, (stepAct idx F ps)^[d] a = a := by
  intro d
  induction d with
  | zero => rfl
  | succ n ih =>
    rw [Function.iterate_succ_apply, stepAct_of_finished idx F ps a h, ih]

/-- Draining the pending rows of the current page: one next() per pending
row, none of which fetches. -/
theorem stepAct_drain {ρ : Type} (idx : Index) (F : PyDict → Page ρ)
    (ps : Int) :
    ∀ (pend : List ρ) (skip : Int) (out : List ρ),
      (stepAct idx F ps)^[pend.length] (Option.some ⟨pend, skip⟩, out) =
        (Option.some ⟨[], skip⟩, out ++ pend) := by
  intro pend
  induction pend with
  | nil => intro skip out; simp
  | cons r rest ih =>
    intro skip out
    rw [List.length_cons, Function.iterate_succ_apply,
      show stepAct idx F ps (Option.some ⟨r :: rest, skip⟩, out) =
        (Option.some ⟨rest, skip⟩, out ++ [r]) from rfl, ih]
    simp

/-- A generator activation consumed step by step agrees with the
whole-run pagination loop: if the loop terminates on an empty page within
its fuel, then running the activation machine for one step per yielded
row plus the final empty fetch finishes the activation with exactly the
rows of the loop harvested. -/
theorem machine_matches_loop {ρ : Type} (idx : Index) (F : PyDict → Page ρ)
    (ps : Int) :
    ∀ (fuel : Nat) (skip : Int) (out : List ρ) (calls : List PyDict)
      (rows : List ρ),
      iterPagesLoop F idx ps fuel skip = (calls, rows, true) →
      (stepAct idx F ps)^[rows.length + 1] (Option.some ⟨[], skip⟩, out) =
        (Option.none, out ++ rows) := by
  intro fuel
  induction fuel with
  | zero =>
    intro skip out calls rows h
    rw [show iterPagesLoop F idx ps 0 skip = ([], [], false) from rfl] at h
    simp at h
  | succ n ih =>
    intro skip out calls rows h
    rw [iterPagesLoop_succ] at h
    rcases hq : iterPagesLoop F idx ps n (skip + ps) with ⟨c1, r1, f1⟩
    rw [hq] at h
    cases hR : (F (Index.iterArgs idx skip)).rows with
    | nil =>
      rw [hR] at h
      simp only [List.length_nil, Nat.lt_irrefl, if_false] at h
      obtain ⟨-, hrows⟩ : _ ∧ _ := by simpa [Prod.mk.injEq] using h
      subst hrows
      simp only [List.length_nil, Nat.zero_add, Function.iterate_one]
      simp [stepAct, Index.iterNext, hR]
    | cons r rest =>
      rw [hR] at h
      rw [if_pos (by simp)] at h
      obtain ⟨-, hrows, hfin⟩ : _ ∧ _ ∧ _ := by
        simpa [Prod.mk.injEq] using h
      subst hrows
      rw [hfin] at hq
      have hih := ih (skip + ps) ((out ++ [r]) ++ rest) c1 r1 hq
      have hexp : (r :: (rest ++ r1)).length + 1 =
          (r1.length + 1) + (rest.length + 1) := by
        simp [List.length_append]
        omega
      have hstep1 : (stepAct idx F ps)^[rest.length + 1]
          (Option.some ⟨[], skip⟩, out) =
          (Option.some ⟨[], skip + ps⟩, (out ++ [r]) ++ rest) := by
        rw [Function.iterate_succ_apply,
          show stepAct idx F ps (Option.some ⟨[], skip⟩, out) =
              (Option.some ⟨rest, skip + ps⟩, out ++ [r]) from by
            simp [stepAct, Index.iterNext, hR],
          stepAct_drain idx F ps rest (skip + ps) (out ++ [r])]
      rw [hexp, Function.iterate_add_apply, hstep1, hih]
      simp

/-- Interleaving two generator activations over the same Index never
makes them interact: under any schedule, each activation ends exactly as
if it alone had been advanced that many times. -/
theorem runSched_indep {ρ : Type} (idx : Index) (F : PyDict → Page ρ)
    (ps : Int) :
    ∀ (sched : List Bool) (a b : Option (IterState ρ) × List ρ),
      runSched idx F ps sched a b =
        ((stepAct idx F ps)^[sched.count true] a,
         (stepAct idx F ps)^[sched.count false] b) := by
  intro sched
  induction sched with
  | nil => intro a b; rfl
  | cons c rest ih =>
    intro a b
    cases c
    · rw [show runSched idx F ps (false :: rest) a b =
          runSched idx F ps rest a (stepAct idx F ps b) from rfl, ih]
      simp [List.count_cons, Function.iterate_succ_apply]
    · rw [show runSched idx F ps (true :: rest) a b =
          runSched idx F ps rest (stepAct idx F ps a) b from rfl, ih]
      simp [List.count_cons, Function.iterate_succ_apply]

/-- C9: the Index operations do not mutate the Index — the pagination
skip counter lives in the activation state of each iteration, not on the
Index — so (1) two interleaved lazy iterations over the same Index are
independent: under any schedule each activation equals its solo run of
the same number of steps; (2) a finished activation never changes again,
whatever further steps the schedule gives it; and (3) an activation
started fresh by the generator prologue and stepped to exhaustion
harvests exactly the full result set of the pagination loop. -/
theorem claim_C9 (ρ : Type) (idx : Index) (F : PyDict → Page ρ) (ps : Int)
    (s0 : IterState ρ)
    (hstart : Index.iterStart ρ idx = Except.ok s0)
    (hps : idx._page_size = PyVal.int ps) :
    (∀ (sched : List Bool) (a b : Option (IterState ρ) × List ρ),
        runSched idx F ps sched a b =
          ((stepAct idx F ps)^[sched.count true] a,
           (stepAct idx F ps)^[sched.count false] b))
    ∧ (∀ (a : Option (IterState ρ) × List ρ) (n m : Nat),
        ((stepAct idx F ps)^[n] a).1 = Option.none → n ≤ m →
        (stepAct idx F ps)^[m] a = (stepAct idx F ps)^[n] a)
    ∧ (∀ (fuel : Nat) (calls : List PyDict) (rows : List ρ),
        iterPagesLoop F idx ps fuel 0 = (calls, rows, true) →
        (stepAct idx F ps)^[rows.length + 1]
            (Option.some s0, ([] : List ρ)) = (Option.none, rows)) := by
  have hs0 : s0 = ⟨[], 0⟩ := by
    rw [Index.iterStart] at hstart
    split at hstart
    · exact absurd hstart (by simp)
    · split at hstart
      · exact absurd hstart (by simp)
      · exact (Except.ok.injEq .. ▸ hstart).symm
  refine ⟨runSched_indep idx F ps, ?_, ?_⟩
  · intro a n m hfin hnm
    obtain ⟨d, rfl⟩ : ∃ d, m = d + n := ⟨m - n, by omega⟩
    rw [Function.iterate_add_apply]
    exact iterate_stepAct_of_finished idx F ps _ hfin d
  · intro fuel calls rows h
    rw [hs0]
    have := machine_matches_loop idx F ps fuel 0 [] calls rows h
    simpa using this

/-- C9 witness: a two-row result set, a schedule interleaving two
activations, and the bridge to the pagination loop at fuel 2. -/
theorem claim_C9_witness :
    (runSched (Index.init []) sampleFetch 100 [true, false, true]
        (Option.some ⟨[], 0⟩, ([] : List Nat))
        (Option.some ⟨[], 0⟩, ([] : List Nat)) =
      ((stepAct (Index.init []) sampleFetch 100)^[2]
          (Option.some ⟨[], 0⟩, ([] : List Nat)),
       (stepAct (Index.init []) sampleFetch 100)^[1]
          (Option.some ⟨[], 0⟩, ([] : List Nat))))
    ∧ (stepAct (Index.init []) sampleFetch 100)^[3]
        (Option.some ⟨[], 0⟩, ([] : List Nat)) = (Option.none, [5, 7]) := by
  have h := claim_C9 Nat (Index.init []) sampleFetch 100 ⟨[], 0⟩ rfl rfl
  exact ⟨h.1 [true, false, true] _ _, h.2.2 2 _ [5, 7] rfl⟩

end Cloudant
